import Mathlib

/-!
# TraderMaster — verification of the game-engine core

Shallow embedding of the TraderMaster server engine:

* `src/shared/src/constants.ts` — configuration constants
* `src/server/src/utils/bs.ts` — `BlackScholes.cdf`,
  `BlackScholes.calculateProbability`, `BlackScholes.calculateOdds`
* `src/server/src/market.ts` — `Market.tick` (the price process)
* `src/server/src/rooms/MarketRoom.ts` — the room: bet placement,
  settlement, grid generation

JavaScript `number` arithmetic is modelled exactly over `ℚ` (for the
room / odds / market code, which uses only field operations, `floor`,
`round`, `min`/`max`) and over `ℝ` for the Gaussian pricing model
(which needs `exp` and `sqrt`).  `Math.round x` is `⌊x + 1/2⌋`.
Colyseus `MapSchema` collections are modelled as association lists in
insertion order (`set` overwrites in place or appends).  The
`Math.random().toString(36)` id generation is modelled by a fresh-id
counter in the room state, and the random draws of `Market.tick` are
passed in as explicit inputs in `[0,1)`.
-/

namespace TraderMaster

/-! ## Constants (src/shared/src/constants.ts, version paired with the
12-layer grid that `MarketRoom.generatePredictionCells` uses) -/

def PREDICTION_DURATION : ℤ := 30
def PREDICTION_PRICE_HEIGHT : ℚ := 1
def PREDICTION_GENERATION_INTERVAL : ℤ := 30
def PREDICTION_LAYERS : ℕ := 12
def PREDICTION_INITIAL_COLUMNS : ℕ := 16

/-! ## BlackScholes.calculateOdds (src/server/src/utils/bs.ts, lines 45–55)

Pure rational arithmetic: `(1/p) * 0.95` then `Math.round(odds*100)/100`. -/

/-- JavaScript `Math.round`: round half towards positive infinity. -/
def jsRound (x : ℚ) : ℤ := ⌊x + 1/2⌋

namespace BlackScholes

/-- `BlackScholes.calculateOdds` from src/server/src/utils/bs.ts. -/
def calculateOdds (probability : ℚ) : ℚ :=
  if probability ≤ 1/100 then 99          -- Cap max odds
  else if probability ≥ 99/100 then 101/100  -- Min odds
  else
    -- House edge of 5%: House Odds = (1 / P) * 0.95, rounded to 2 decimals
    let odds := (1 / probability) * (95/100)
    (jsRound (odds * 100) : ℚ) / 100

end BlackScholes

/-! ## Data model (src/shared/src/schema/MarketState.ts) -/

/-- Bet.status is the string `"pending" | "won" | "lost"` in the source. -/
inductive BetStatus where
  | pending
  | won
  | lost
deriving DecidableEq, Repr

/-- Schema class `Bet`. -/
structure Bet where
  id : String
  cellId : String
  startTime : ℤ
  endTime : ℤ
  highPrice : ℚ
  lowPrice : ℚ
  amount : ℚ
  odds : ℚ
  payout : ℚ
  status : BetStatus
  ownerId : String
deriving DecidableEq, Repr

/-- Schema class `PredictionCell`. -/
structure PredictionCell where
  id : String
  startTime : ℤ
  endTime : ℤ
  highPrice : ℚ
  lowPrice : ℚ
  probability : ℚ
  odds : ℚ
deriving DecidableEq, Repr

/-- Schema class `Player` (id, balance, connected, bets map). -/
structure Player where
  id : String
  balance : ℚ
  connected : Bool
  bets : List (String × Bet)
deriving DecidableEq, Repr

/-! ### MapSchema as association lists

Colyseus `MapSchema` is a string-keyed map iterated in insertion order;
`get` is `lookupA`, `set` is `insertA` (overwrite in place, else append
at the end), `delete` is `eraseA`. -/

def lookupA {α : Type} (k : String) : List (String × α) → Option α
  | [] => none
  | (k', v) :: rest => if k' = k then some v else lookupA k rest

def insertA {α : Type} (k : String) (v : α) : List (String × α) → List (String × α)
  | [] => [(k, v)]
  | (k', v') :: rest =>
    if k' = k then (k', v) :: rest else (k', v') :: insertA k v rest

def eraseA {α : Type} (k : String) : List (String × α) → List (String × α)
  | [] => []
  | (k', v') :: rest => if k' = k then rest else (k', v') :: eraseA k rest

/-- The room state owned by `MarketRoom`: the replicated `MarketState`
(players, predictionCells, currentPrice) plus the room-private
`lastGenerationTime`.  `nextId` models the `Math.random().toString(36)`
id generation as a fresh-id supply. -/
structure RoomState where
  players : List (String × Player)
  predictionCells : List (String × PredictionCell)
  currentPrice : ℚ
  lastGenerationTime : ℤ
  nextId : ℕ
deriving DecidableEq, Repr

/-! ## Bet placement (src/server/src/rooms/MarketRoom.ts, PLACE_BET handler) -/

/-- The error messages the PLACE_BET handler can send. -/
inductive PlaceError where
  | minimumBet          -- "Minimum bet amount is 10"
  | insufficientBalance -- "Insufficient balance"
  | cellNotFound        -- "Prediction cell not found or expired"
  | alreadyBet          -- "You have already placed a bet on this cell"
deriving DecidableEq, Repr

/-- The BET_PLACED acknowledgement `{ id, odds, cellId }`. -/
structure PlacedAck where
  id : String
  odds : ℚ
  cellId : String
deriving DecidableEq, Repr

/-- The PLACE_BET message handler.  Mirrors the source's control flow:
each early `return` after an error `send` leaves the state untouched;
on success the balance is debited and the new bet inserted. -/
def placeBet (s : RoomState) (sessionId : String) (cellId : String)
    (amount : ℚ) : RoomState × Except PlaceError PlacedAck :=
  -- 3. Bet: Minimum amount limit (`!amount || amount < 10`)
  if amount = 0 ∨ amount < 10 then
    (s, .error .minimumBet)
  else
    -- Check balance (`!player || player.balance < amount`)
    match lookupA sessionId s.players with
    | none => (s, .error .insufficientBalance)
    | some player =>
      if player.balance < amount then
        (s, .error .insufficientBalance)
      else
        -- Find Prediction Cell
        match lookupA cellId s.predictionCells with
        | none => (s, .error .cellNotFound)
        | some cell =>
          -- Check if player already placed a bet on this cell
          if player.bets.any (fun b => b.2.cellId = cell.id) then
            (s, .error .alreadyBet)
          -- Deduct balance (second, redundant balance check in the source)
          else if player.balance < amount then
            (s, .error .insufficientBalance)
          else
            let betId := toString s.nextId
            let bet : Bet :=
              { id := betId
                cellId := cell.id
                startTime := cell.startTime
                endTime := cell.endTime
                highPrice := cell.highPrice
                lowPrice := cell.lowPrice
                amount := amount
                odds := cell.odds
                payout := 0
                status := .pending
                ownerId := sessionId }
            let player' : Player :=
              { player with
                  balance := player.balance - amount
                  bets := insertA bet.id bet player.bets }
            ({ s with
                players := insertA sessionId player' s.players
                nextId := s.nextId + 1 },
             .ok { id := bet.id, odds := cell.odds, cellId := cell.id })

/-! ## Candle and the price process (src/server/src/market.ts) -/

/-- An OHLC candle.  The source field `open` is `open_` here (`open` is
a Lean keyword). -/
structure Candle where
  time : ℤ
  open_ : ℚ
  high : ℚ
  low : ℚ
  close : ℚ
deriving DecidableEq, Repr

/-- State of the `Market` class: current price, simulated time, candle
history. -/
structure MarketSt where
  currentPrice : ℚ
  currentTime : ℤ
  history : List Candle
deriving DecidableEq, Repr

namespace Market

/-- `Market.tick`: one step of the random walk.  The three
`Math.random()` draws are passed explicitly as `r1 r2 r3 ∈ [0,1)`. -/
def tick (m : MarketSt) (r1 r2 r3 : ℚ) : MarketSt × Candle :=
  -- Simple Random Walk with volatility
  let volatility : ℚ := 2/10
  let change := (r1 - 1/2) * volatility
  let openP := m.currentPrice
  let closeP := openP + change
  let highP := max openP closeP + r2 * (5/100)
  let lowP := min openP closeP - r3 * (5/100)
  let time' := m.currentTime + 1   -- 1 second per tick
  let candle : Candle :=
    { time := time', open_ := openP, high := highP, low := lowP, close := closeP }
  let hist := m.history ++ [candle]
  -- Keep only last 5000 points to save memory
  let hist := if hist.length > 5000 then hist.drop 1 else hist
  ({ currentPrice := closeP, currentTime := time', history := hist }, candle)

end Market

/-! ## Settlement (src/server/src/rooms/MarketRoom.ts, update, lines 166–224) -/

/-- One iteration of the per-bet `forEach` body in `update`: returns the
updated bet, whether the bet is kept (a finished bet with
`now > endTime + 60` is pushed onto `betsToRemove`), and the amount
credited to the player's balance (the payout of a freshly won bet). -/
def settleBet (now : ℤ) (close : ℚ) (b : Bet) : Bet × Bool × ℚ :=
  if b.status = .pending then
    -- 4. Settlement: Check at time point
    if now ≥ b.endTime then
      -- Use [Low, High) for inclusive low, exclusive high
      if b.lowPrice ≤ close ∧ close < b.highPrice then
        ({ b with status := .won, payout := b.amount * b.odds }, true,
          b.amount * b.odds)
      else
        ({ b with status := .lost, payout := 0 }, true, 0)
    else (b, true, 0)
  else
    -- Cleanup old bets: if bet is finished and time > endTime + 60s
    (b, if now > b.endTime + 60 then false else true, 0)

/-- Total amount credited to one player's balance by one settlement
pass over their bets. -/
def passCredit (now : ℤ) (close : ℚ) : List (String × Bet) → ℚ
  | [] => 0
  | (_, b) :: rest => (settleBet now close b).2.2 + passCredit now close rest

/-- The bet map after one settlement pass: each bet is settled, and the
bets collected in `betsToRemove` are deleted. -/
def settleBets (now : ℤ) (close : ℚ) : List (String × Bet) → List (String × Bet)
  | [] => []
  | (k, b) :: rest =>
    let r := settleBet now close b
    if r.2.1 then (k, r.1) :: settleBets now close rest
    else settleBets now close rest

/-- One settlement pass over a single player: settle every bet,
credit the won payouts to the balance, delete retired bets. -/
def settlePlayer (now : ℤ) (close : ℚ) (p : Player) : Player :=
  { p with
      balance := p.balance + passCredit now close p.bets
      bets := settleBets now close p.bets }

/-- Cleanup of expired prediction cells (`now > cell.endTime`). -/
def cleanupCells (now : ℤ) : List (String × PredictionCell) → List (String × PredictionCell)
  | [] => []
  | (k, c) :: rest =>
    if now > c.endTime then cleanupCells now rest
    else (k, c) :: cleanupCells now rest

/-! ## Grid generation (src/server/src/rooms/MarketRoom.ts, lines 238–272)

`createPredictionCell` computes `BlackScholes.calculateProbability` of
the live market price over `ℝ`; in the room model each generated cell's
probability is supplied as an oracle input (`probs`), and its odds are
`BlackScholes.calculateOdds` of that probability, exactly as in
`createPredictionCell`. -/

/-- `MarketRoom.generatePredictionCells`: 12 standardized cells at the
snapped base price.  `startId` is the fresh-id supply. -/
def generatePredictionCells (currentPrice : ℚ) (currentTime : ℤ)
    (probs : List ℚ) (startId : ℕ) : List PredictionCell :=
  let endTime := currentTime + PREDICTION_DURATION
  -- Align generation to grid to ensure consistent vertical positioning
  let basePrice : ℚ :=
    (⌊currentPrice / PREDICTION_PRICE_HEIGHT⌋ : ℚ) * PREDICTION_PRICE_HEIGHT
  (List.range PREDICTION_LAYERS).map fun (i : ℕ) =>
    let low := basePrice +
      ((PREDICTION_LAYERS : ℚ) / 2 - (i : ℚ)) * PREDICTION_PRICE_HEIGHT
    let high := low + PREDICTION_PRICE_HEIGHT
    let p := probs.getD i 0
    { id := toString (startId + i)
      startTime := currentTime
      endTime := endTime
      lowPrice := low
      highPrice := high
      probability := p
      odds := BlackScholes.calculateOdds p }

/-- Insert freshly generated cells into the cell map
(`this.state.predictionCells.set(cell.id, cell)`). -/
def addCells (cells : List PredictionCell)
    (m : List (String × PredictionCell)) : List (String × PredictionCell) :=
  cells.foldl (fun acc c => insertA c.id c acc) m

/-! ## The tick update (src/server/src/rooms/MarketRoom.ts, update) -/

/-- `MarketRoom.update` for a given new candle: record the close price,
regenerate the grid when `PREDICTION_GENERATION_INTERVAL` has elapsed,
run one settlement pass over every player, purge expired cells.
`probs` supplies the probability of each cell generated this tick. -/
def update (s : RoomState) (candle : Candle) (probs : List ℚ) : RoomState :=
  let s1 := { s with currentPrice := candle.close }
  let s2 :=
    if candle.time - s1.lastGenerationTime ≥ PREDICTION_GENERATION_INTERVAL then
      { s1 with
          predictionCells :=
            addCells (generatePredictionCells candle.close candle.time probs s1.nextId)
              s1.predictionCells
          nextId := s1.nextId + PREDICTION_LAYERS
          lastGenerationTime := candle.time }
    else s1
  { s2 with
      players := s2.players.map fun kp => (kp.1, settlePlayer candle.time candle.close kp.2)
      predictionCells := cleanupCells candle.time s2.predictionCells }

/-- `MarketRoom.onJoin`: reconnect an existing player, else create a
fresh player with the initial balance of 10000. -/
def onJoin (s : RoomState) (sessionId : String) : RoomState :=
  match lookupA sessionId s.players with
  | some player =>
    { s with players := insertA sessionId { player with connected := true } s.players }
  | none =>
    { s with
        players :=
          insertA sessionId
            { id := sessionId, balance := 10000, connected := true, bets := [] }
            s.players }

/-! ## Operations and runs -/

/-- The externally triggered state transitions the claims quantify
over: a join, a PLACE_BET request, and one simulation tick (with its
candle and generation probabilities as oracle inputs). -/
inductive Op where
  | join (sessionId : String)
  | place (sessionId cellId : String) (amount : ℚ)
  | update (candle : Candle) (probs : List ℚ)
deriving DecidableEq, Repr

def applyOp (s : RoomState) : Op → RoomState
  | .join sid => onJoin s sid
  | .place sid cid amt => (placeBet s sid cid amt).1
  | .update c probs => update s c probs

def run (s : RoomState) : List Op → RoomState
  | [] => s
  | op :: ops => run (applyOp s op) ops

/-! ## The Gaussian pricing model over ℝ (src/server/src/utils/bs.ts) -/

noncomputable section

namespace BlackScholes

/-- Volatility constant `sigma = 1500` of the `BlackScholes` class. -/
def sigma : ℝ := 1500

/-- Standard Normal Cumulative Distribution Function (`BlackScholes.cdf`),
the Zelen–Severo polynomial approximation used by the source. -/
def cdf (x : ℝ) : ℝ :=
  let t := 1 / (1 + 0.2316419 * |x|)
  let d := 0.3989423 * Real.exp (-x * x / 2)
  let p := d * t *
    (0.3193815 + t * (-0.3565638 + t * (1.781478 + t * (-1.821256 + t * 1.330274))))
  if x > 0 then 1 - p else p

/-- `BlackScholes.calculateProbability`: probability that the price is
between `L` and `H` at maturity `T`, under the arithmetic Brownian
model with standard deviation `sigma * sqrt T`. -/
def calculateProbability (S L H T : ℝ) : ℝ :=
  if T ≤ 0 then 0
  else
    let std_dev := sigma * Real.sqrt T
    let z_H := (H - S) / std_dev
    let z_L := (L - S) / std_dev
    max 0 (cdf z_H - cdf z_L)

end BlackScholes

end

/-! ## onCreate (src/server/src/rooms/MarketRoom.ts, lines 11–93)

The initial room state: no players, `PREDICTION_INITIAL_COLUMNS`
pre-generated grid batches at `now, now+30, now+60, …`, and
`lastGenerationTime` fast-forwarded past the pre-roll.  `probss`
supplies the probability oracle for each pre-generated batch. -/

/-- One iteration of onCreate's pre-generation loop: generate the batch
for column `i` (at time `now + i·30`) into the cell set. -/
def preGenStep (now : ℤ) (currentPrice : ℚ) (probss : List (List ℚ))
    (s : RoomState) (i : ℕ) : RoomState :=
  { s with
      predictionCells :=
        addCells
          (generatePredictionCells currentPrice
            (now + (i : ℤ) * PREDICTION_GENERATION_INTERVAL)
            (probss.getD i []) s.nextId)
          s.predictionCells
      nextId := s.nextId + PREDICTION_LAYERS }

def onCreate (now : ℤ) (currentPrice : ℚ) (probss : List (List ℚ)) : RoomState :=
  let s0 : RoomState :=
    { players := []
      predictionCells := []
      currentPrice := 0
      lastGenerationTime := 0
      nextId := 0 }
  let s1 := (List.range PREDICTION_INITIAL_COLUMNS).foldl
    (preGenStep now currentPrice probss) s0
  { s1 with
      lastGenerationTime :=
        now + ((PREDICTION_INITIAL_COLUMNS : ℤ) - 1) * PREDICTION_GENERATION_INTERVAL }

/-! ## Derived observations used by the claims -/

/-- Was a PLACE_BET request accepted? -/
def placeOk (s : RoomState) (sessionId cellId : String) (amount : ℚ) : Bool :=
  match (placeBet s sessionId cellId amount).2 with
  | .ok _ => true
  | .error _ => false

/-- The balance of a player (0 when the player does not exist). -/
def balanceOf (sessionId : String) (s : RoomState) : ℚ :=
  match lookupA sessionId s.players with
  | some p => p.balance
  | none => 0

/-- Sum of the stakes of the accepted placements of a player along a
run of operations. -/
def placedTotal (sessionId : String) : RoomState → List Op → ℚ
  | _, [] => 0
  | s, op :: ops =>
    (match op with
     | .place sid cid amt =>
       if sid = sessionId ∧ placeOk s sid cid amt = true then amt else 0
     | _ => 0) + placedTotal sessionId (applyOp s op) ops

/-- The payout credited to a player by one settlement pass on candle `c`
from state `s`. -/
def creditOf (sessionId : String) (s : RoomState) (c : Candle) : ℚ :=
  match lookupA sessionId s.players with
  | some p => passCredit c.time c.close p.bets
  | none => 0

/-- Sum of the payouts of a player's bets that resolved won along a run
of operations. -/
def wonTotal (sessionId : String) : RoomState → List Op → ℚ
  | _, [] => 0
  | s, op :: ops =>
    (match op with
     | .update c _ => creditOf sessionId s c
     | _ => 0) + wonTotal sessionId (applyOp s op) ops

def isJoin : Op → Bool
  | .join _ => true
  | _ => false

/-- Well-formedness of a bet: non-negative stake and odds. -/
def betWF (b : Bet) : Prop := 0 ≤ b.amount ∧ 0 ≤ b.odds

/-- Well-formedness of a player: non-negative balance, well-formed bets. -/
def playerWF (p : Player) : Prop := 0 ≤ p.balance ∧ ∀ kb ∈ p.bets, betWF kb.2

/-- Well-formedness of a cell: non-negative odds. -/
def cellWF (c : PredictionCell) : Prop := 0 ≤ c.odds

/-- The room-state invariant behind claim C10. -/
def StateWF (s : RoomState) : Prop :=
  (∀ kp ∈ s.players, playerWF kp.2) ∧ ∀ kc ∈ s.predictionCells, cellWF kc.2

/-- Outcome of a placement: the error sent, or `none` on acceptance. -/
def outcomeOf (r : Except PlaceError PlacedAck) : Option PlaceError :=
  match r with
  | .error e => some e
  | .ok _ => none

/-- Modelled from the amended claim's words: the PLACE_BET validations
in the order the handler performs them, reporting the first failing
check — `amount ≥ 10` else `minimumBet`; player exists *and*
`balance ≥ amount` else `insufficientBalance`; cell open else
`cellNotFound`; no existing bet on the cell else `alreadyBet`. -/
def placeBetSpecOutcome (s : RoomState) (sessionId cellId : String)
    (amount : ℚ) : Option PlaceError :=
  if amount = 0 ∨ amount < 10 then some .minimumBet
  else
    match lookupA sessionId s.players with
    | none => some .insufficientBalance
    | some player =>
      if player.balance < amount then some .insufficientBalance
      else
        match lookupA cellId s.predictionCells with
        | none => some .cellNotFound
        | some cell =>
          if player.bets.any (fun b => b.2.cellId = cell.id) then some .alreadyBet
          else none

/-! ## Concrete sample data for counterexamples and witnesses -/

/-- A pending sample bet on the price interval `[99, 101)` maturing at
time 10. -/
def samplePendingBet : Bet :=
  { id := "b", cellId := "c", startTime := 0, endTime := 10,
    highPrice := 101, lowPrice := 99, amount := 100, odds := 2,
    payout := 0, status := .pending, ownerId := "a" }

/-- A sample bet that has already resolved won (payout 200). -/
def sampleWonBet : Bet :=
  { id := "b", cellId := "c", startTime := 0, endTime := 10,
    highPrice := 101, lowPrice := 99, amount := 100, odds := 2,
    payout := 200, status := .won, ownerId := "a" }

/-- A sample open cell on `[99, 101)` with odds 2, maturing at time 10. -/
def sampleCell : PredictionCell :=
  { id := "c", startTime := 0, endTime := 10,
    highPrice := 101, lowPrice := 99, probability := 1/2, odds := 2 }

/-- A room with one player (balance `bal`, no bets) and one open sample
cell. -/
def sampleRoom (bal : ℚ) : RoomState :=
  { players := [("a", { id := "a", balance := bal, connected := true, bets := [] })]
    predictionCells := [("c", sampleCell)]
    currentPrice := 100
    lastGenerationTime := 0
    nextId := 0 }

/-- A room with one player of balance 5 and no open cells. -/
def poorRoomNoCells : RoomState :=
  { players := [("a", { id := "a", balance := 5, connected := true, bets := [] })]
    predictionCells := []
    currentPrice := 100
    lastGenerationTime := 0
    nextId := 0 }

/-- A candle at time 10 closing at 100 (inside the sample cell). -/
def sampleCandle : Candle :=
  { time := 10, open_ := 100, high := 100, low := 100, close := 100 }

/-! # Theorems -/

/-! ## C1 — the odds law -/

/-- C1, counterexample: the claim "odds(p) ≥ 1.01 for every probability
p" fails at `p = 0.95`, where the unclamped branch computes
`round2((1/0.95)·0.95) = 1 < 1.01`.  (The claim's `odds(p)·p ≤ 1` part
also fails, e.g. at `p = 0.995` where the 1.01 clamp gives
`1.01 · 0.995 > 1`.) -/
theorem odds_law_counterexample :
    (0 : ℚ) ≤ 19/20 ∧ (19/20 : ℚ) ≤ 1 ∧
      BlackScholes.calculateOdds (19/20) < 101/100 ∧
      BlackScholes.calculateOdds (199/200) * (199/200) > 1 := by
  refine ⟨by norm_num, by norm_num, ?_, ?_⟩ <;>
    norm_num [BlackScholes.calculateOdds, jsRound]

/-- C1, amended: for every probability `p ∈ [0,1]`, the returned
multiplier satisfies `0.96 ≤ odds(p) ≤ 99`, and `odds(p) · p ≤ 1`
whenever `p ≤ 0.99`; for `p` above `1/1.01 ≈ 0.9901` the 1.01 clamp
makes `odds(p) · p` exceed 1. -/
theorem calculateOdds_range (p : ℚ) (h0 : 0 ≤ p) (h1 : p ≤ 1) :
    96/100 ≤ BlackScholes.calculateOdds p ∧
      BlackScholes.calculateOdds p ≤ 99 ∧
      (p ≤ 99/100 → BlackScholes.calculateOdds p * p ≤ 1) := by
  unfold BlackScholes.calculateOdds
  split_ifs with hle hge
  · exact ⟨by norm_num, by norm_num, fun _ => by nlinarith⟩
  · exact ⟨by norm_num, by norm_num, fun hp => by nlinarith⟩
  · push_neg at hle hge
    have hp0 : 0 < p := lt_trans (by norm_num) hle
    simp only [jsRound]
    have hxval : (1 / p) * (95/100) * 100 = 95 / p := by field_simp; ring
    rw [hxval]
    have hfl_le : ((⌊(95:ℚ) / p + 1/2⌋ : ℤ) : ℚ) ≤ 95 / p + 1/2 := Int.floor_le _
    have h96 : ((96 : ℤ) : ℚ) ≤ ((⌊(95:ℚ) / p + 1/2⌋ : ℤ) : ℚ) := by
      have h : (96 : ℤ) ≤ ⌊(95:ℚ) / p + 1/2⌋ := by
        rw [Int.le_floor]
        push_cast
        have h955 : (191/2 : ℚ) ≤ 95 / p := by
          rw [le_div_iff₀ hp0]; nlinarith
        linarith
      exact_mod_cast h
    have hub : (95:ℚ) / p < 9500 := by
      rw [div_lt_iff₀ hp0]; nlinarith
    have hmul : ((⌊(95:ℚ) / p + 1/2⌋ : ℤ) : ℚ) * p ≤ (95 / p + 1/2) * p :=
      mul_le_mul_of_nonneg_right hfl_le h0
    have hexp : (95 / p + 1/2) * p = 95 + p / 2 := by field_simp; ring
    rw [hexp] at hmul
    refine ⟨by push_cast at h96 ⊢; linarith, by linarith, fun hp => ?_⟩
    nlinarith

/-- C1, witness: the amended bounds at `p = 1/2`. -/
theorem calculateOdds_range_witness :
    (0 : ℚ) ≤ 1/2 ∧ (1/2 : ℚ) ≤ 1 ∧
      (96/100 ≤ BlackScholes.calculateOdds (1/2) ∧
        BlackScholes.calculateOdds (1/2) ≤ 99 ∧
        ((1/2 : ℚ) ≤ 99/100 → BlackScholes.calculateOdds (1/2) * (1/2) ≤ 1)) :=
  ⟨by norm_num, by norm_num, calculateOdds_range (1/2) (by norm_num) (by norm_num)⟩

/-! ## C2 — placement validation order -/

/-- C2, counterexample: the claimed order "player exists else
UnknownPlayer; cell exists else CellExpired; …; balance ≥ amount else
InsufficientBalance" does not match the handler.  With a player of
balance 5, a request of amount 20 on a non-existent cell is rejected
with "Insufficient balance", not with the cell error the claimed order
would report first — the handler checks the balance *before* looking
the cell up, and it has no UnknownPlayer error at all. -/
theorem placeBet_order_counterexample :
    (placeBet poorRoomNoCells "a" "c" 20).2 = .error .insufficientBalance ∧
      PlaceError.insufficientBalance ≠ PlaceError.cellNotFound := by
  refine ⟨?_, by simp⟩
  norm_num [placeBet, poorRoomNoCells, lookupA]

/-- C2, amended: the handler performs its validations in this order and
reports the first failing check — `amount ≥ 10` (and non-zero) else the
minimum-bet error; player exists *and* `player.balance ≥ amount` else
the insufficient-balance error (a missing player also reports
insufficient balance — there is no separate unknown-player error); the
cell exists in the open cell set else the cell-not-found error; the
player holds no existing bet referencing that cellId else the
duplicate-bet error. -/
theorem placeBet_validation_order (s : RoomState) (sid cid : String) (amt : ℚ) :
    outcomeOf (placeBet s sid cid amt).2 = placeBetSpecOutcome s sid cid amt := by
  unfold placeBet placeBetSpecOutcome outcomeOf
  by_cases h1 : amt = 0 ∨ amt < 10
  · simp [h1]
  · simp only [h1, if_false]
    cases hp : lookupA sid s.players with
    | none => simp
    | some player =>
      by_cases h2 : player.balance < amt
      · simp [h2]
      · simp only [h2, if_false]
        cases hc : lookupA cid s.predictionCells with
        | none => simp
        | some cell =>
          by_cases h3 : player.bets.any (fun b => b.2.cellId = cell.id) = true
          · simp [h3]
          · simp [h3, h2]

/-! ## C6 — rejected placements mutate nothing -/

/-- Helper: an erroring placement returns the input state. -/
theorem placeBet_error_fst (s : RoomState) (sid cid : String) (amt : ℚ)
    (e : PlaceError) (h : (placeBet s sid cid amt).2 = .error e) :
    (placeBet s sid cid amt).1 = s := by
  unfold placeBet at h ⊢
  by_cases h1 : amt = 0 ∨ amt < 10
  · simp [h1]
  · simp only [h1, if_false] at h ⊢
    cases hp : lookupA sid s.players with
    | none => simp [hp]
    | some player =>
      simp only [hp] at h ⊢
      by_cases h2 : player.balance < amt
      · simp [h2]
      · simp only [h2, if_false] at h ⊢
        cases hc : lookupA cid s.predictionCells with
        | none => simp [hc]
        | some cell =>
          simp only [hc] at h ⊢
          by_cases h3 : player.bets.any (fun b => b.2.cellId = cell.id) = true
          · simp [h3]
          · simp [h3, h2] at h

/-- C6: a rejected placement leaves the room state — every player's
balance and bet set and the open cell set — exactly as it was. -/
theorem placeBet_reject_pure (s : RoomState) (sid cid : String) (amt : ℚ)
    (e : PlaceError) (h : (placeBet s sid cid amt).2 = .error e) :
    (placeBet s sid cid amt).1 = s :=
  placeBet_error_fst s sid cid amt e h

/-- C6, witness: a below-minimum request against a concrete one-player
state is rejected and leaves the state unchanged. -/
theorem placeBet_reject_pure_witness :
    (placeBet (sampleRoom 10000) "a" "c" 5).1 = sampleRoom 10000 :=
  placeBet_reject_pure _ "a" "c" 5 .minimumBet (by norm_num [placeBet])

/-! ## C4 — the half-open win interval -/

/-- C4: when a settlement pass reaches a pending bet whose maturity has
arrived (`now ≥ endTime`), the bet resolves won exactly when the
candle's close lies in `[lowPrice, highPrice)` — a close equal to
`lowPrice` wins, a close equal to `highPrice` loses. -/
theorem settle_win_iff (now : ℤ) (close : ℚ) (b : Bet)
    (hpend : b.status = .pending) (hmat : now ≥ b.endTime) :
    ((settleBet now close b).1.status = .won ↔
        b.lowPrice ≤ close ∧ close < b.highPrice) ∧
      ((settleBet now close b).1.status = .lost ↔
        ¬(b.lowPrice ≤ close ∧ close < b.highPrice)) := by
  unfold settleBet
  rw [if_pos hpend, if_pos hmat]
  by_cases h : b.lowPrice ≤ close ∧ close < b.highPrice <;> simp [h]

/-- C4, witness: a pending bet on `[99, 101)` maturing at `now = 10`
with a close exactly on the low boundary resolves won. -/
theorem settle_win_iff_witness :
    samplePendingBet.status = BetStatus.pending ∧
      (10 : ℤ) ≥ samplePendingBet.endTime ∧
      ((settleBet 10 99 samplePendingBet).1.status = .won ↔
        samplePendingBet.lowPrice ≤ 99 ∧ (99 : ℚ) < samplePendingBet.highPrice) :=
  ⟨rfl, by norm_num [samplePendingBet],
    (settle_win_iff 10 99 samplePendingBet rfl
      (by norm_num [samplePendingBet])).1⟩

/-! ## C5 — terminal bets are frozen -/

/-- C5: a bet whose status is `won` or `lost` is returned unchanged by
every later settlement iteration (status and payout included), and the
only status changes a settlement iteration ever makes start from
`pending` and end in `won` or `lost` — never back to `pending`. -/
theorem settle_terminal_frozen (now : ℤ) (close : ℚ) (b : Bet) :
    (b.status ≠ .pending → (settleBet now close b).1 = b) ∧
      ((settleBet now close b).1.status ≠ b.status →
        b.status = .pending ∧
          ((settleBet now close b).1.status = .won ∨
            (settleBet now close b).1.status = .lost)) := by
  unfold settleBet
  split_ifs <;> simp_all

/-- C5, witness: a settled (won) bet is left untouched by a further
settlement pass at a much later time. -/
theorem settle_terminal_frozen_witness :
    sampleWonBet.status ≠ BetStatus.pending ∧
      (settleBet 1000 0 sampleWonBet).1 = sampleWonBet :=
  ⟨by simp [sampleWonBet],
    (settle_terminal_frozen 1000 0 sampleWonBet).1 (by simp [sampleWonBet])⟩

/-! ## C7 — the generated grid -/

/-- List.range 12, spelled out (helper). -/
theorem range_twelve : List.range 12 = [0,1,2,3,4,5,6,7,8,9,10,11] := rfl

/-- C7, counterexample: the 12 generated layers are not split
symmetrically around the snapped base price.  At price 100 (base price
100) exactly 7 cells lie at or above the base price and only 5 below
it: the lows run from `base + 6` down to `base − 5`. -/
theorem grid_symmetric_counterexample :
    ((generatePredictionCells 100 0 [] 0).filter
        (fun c => (100 : ℚ) ≤ c.lowPrice)).length = 7 ∧
      ((generatePredictionCells 100 0 [] 0).filter
        (fun c => c.lowPrice < (100 : ℚ))).length = 5 ∧ (7 : ℕ) ≠ 5 := by
  refine ⟨?_, ?_, by norm_num⟩ <;>
  · simp only [generatePredictionCells, PREDICTION_LAYERS, PREDICTION_DURATION,
      PREDICTION_PRICE_HEIGHT, range_twelve, List.map_cons, List.map_nil, div_one,
      List.filter_cons, List.filter_nil]
    norm_num

/-- C7, amended: every grid-generation invocation at price `P` and time
`t` emits exactly 12 cells, one per vertical layer, each of price
height exactly 1 (`highPrice = lowPrice + 1`), with `startTime = t` and
`endTime = t + 30`; the layers sit at lows
`basePrice + 6, …, basePrice − 5` with
`basePrice = ⌊P / priceHeight⌋ · priceHeight`, i.e. 7 layers at or
above the snapped base price and 5 below it (not a symmetric split). -/
theorem generatePredictionCells_spec (P : ℚ) (t : ℤ) (probs : List ℚ) (n : ℕ) :
    (generatePredictionCells P t probs n).length = 12 ∧
      (∀ c ∈ generatePredictionCells P t probs n,
        c.highPrice = c.lowPrice + 1 ∧ c.startTime = t ∧ c.endTime = t + 30) ∧
      ((generatePredictionCells P t probs n).filter
        (fun c => (⌊P⌋ : ℚ) ≤ c.lowPrice)).length = 7 ∧
      ((generatePredictionCells P t probs n).filter
        (fun c => c.lowPrice < (⌊P⌋ : ℚ))).length = 5 := by
  simp only [generatePredictionCells, PREDICTION_LAYERS, PREDICTION_DURATION,
    PREDICTION_PRICE_HEIGHT, range_twelve, List.map_cons, List.map_nil, div_one]
  refine ⟨by simp, ?_, ?_, ?_⟩
  · intro c hc
    simp only [List.mem_cons, List.not_mem_nil, or_false] at hc
    rcases hc with h|h|h|h|h|h|h|h|h|h|h|h <;> subst h <;> norm_num
  · simp only [List.filter_cons, List.filter_nil]
    norm_num
  · simp only [List.filter_cons, List.filter_nil]
    norm_num

/-! ## C9 — candle invariants of the price process -/

/-- C9: with the `Math.random()` draws in `[0,1)` given as inputs,
every candle produced by `Market.tick` satisfies
`high ≥ max(open, close)` and `low ≤ min(open, close)`, and the candle
of the following tick opens at this candle's close with a time exactly
one second later. -/
theorem tick_candle_invariants (m : MarketSt) (r1 r2 r3 r4 r5 r6 : ℚ)
    (h2 : 0 ≤ r2) (h3 : 0 ≤ r3) :
    (Market.tick m r1 r2 r3).2.high ≥
        max (Market.tick m r1 r2 r3).2.open_ (Market.tick m r1 r2 r3).2.close ∧
      (Market.tick m r1 r2 r3).2.low ≤
        min (Market.tick m r1 r2 r3).2.open_ (Market.tick m r1 r2 r3).2.close ∧
      (Market.tick (Market.tick m r1 r2 r3).1 r4 r5 r6).2.open_ =
        (Market.tick m r1 r2 r3).2.close ∧
      (Market.tick (Market.tick m r1 r2 r3).1 r4 r5 r6).2.time =
        (Market.tick m r1 r2 r3).2.time + 1 := by
  have hr2 : 0 ≤ r2 * (5/100) := by positivity
  have hr3 : 0 ≤ r3 * (5/100) := by positivity
  refine ⟨?_, ?_, ?_, ?_⟩ <;> simp only [Market.tick] <;> linarith

/-- C9, witness: the invariants at a concrete market state and concrete
draws. -/
theorem tick_candle_invariants_witness :
    (0 : ℚ) ≤ 1/2 ∧ (0 : ℚ) ≤ 1/4 ∧
      ((Market.tick ⟨100, 0, []⟩ 1 (1/2) (1/4)).2.high ≥
          max (Market.tick ⟨100, 0, []⟩ 1 (1/2) (1/4)).2.open_
            (Market.tick ⟨100, 0, []⟩ 1 (1/2) (1/4)).2.close ∧
        (Market.tick ⟨100, 0, []⟩ 1 (1/2) (1/4)).2.low ≤
          min (Market.tick ⟨100, 0, []⟩ 1 (1/2) (1/4)).2.open_
            (Market.tick ⟨100, 0, []⟩ 1 (1/2) (1/4)).2.close ∧
        (Market.tick (Market.tick ⟨100, 0, []⟩ 1 (1/2) (1/4)).1 0 0 0).2.open_ =
          (Market.tick ⟨100, 0, []⟩ 1 (1/2) (1/4)).2.close ∧
        (Market.tick (Market.tick ⟨100, 0, []⟩ 1 (1/2) (1/4)).1 0 0 0).2.time =
          (Market.tick ⟨100, 0, []⟩ 1 (1/2) (1/4)).2.time + 1) :=
  ⟨by norm_num, by norm_num,
    tick_candle_invariants ⟨100, 0, []⟩ 1 (1/2) (1/4) 0 0 0
      (by norm_num) (by norm_num)⟩

/-! ## C8 — symmetry of the pricing model -/

/-- Reflection identity of the source's normal-CDF approximation
(helper): for positive `x`, `cdf (−x) = 1 − cdf x`, because the
polynomial part depends on `x` only through `|x|` and `x·x`. -/
theorem cdf_reflect (x : ℝ) (hx : 0 < x) :
    BlackScholes.cdf (-x) = 1 - BlackScholes.cdf x := by
  unfold BlackScholes.cdf
  rw [if_neg (by simp; linarith), if_pos hx, abs_neg]
  have e : (-(-x) * -x / 2 : ℝ) = -x * x / 2 := by ring
  rw [e]
  ring

/-- C8: for every base price `S`, width `w > 0`, distance `d > 0` and
maturity `T > 0`, the probability assigned to `[S+d, S+d+w]` equals the
probability assigned to `[S−d−w, S−d]`. -/
theorem calculateProbability_symmetric (S d w T : ℝ)
    (hd : 0 < d) (hw : 0 < w) (hT : 0 < T) :
    BlackScholes.calculateProbability S (S + d) (S + d + w) T =
      BlackScholes.calculateProbability S (S - d - w) (S - d) T := by
  unfold BlackScholes.calculateProbability
  rw [if_neg (not_le.mpr hT), if_neg (not_le.mpr hT)]
  have hσ : (0:ℝ) < BlackScholes.sigma * Real.sqrt T := by
    have h := Real.sqrt_pos.mpr hT
    unfold BlackScholes.sigma
    positivity
  have e1 : (S + d + w - S) / (BlackScholes.sigma * Real.sqrt T) =
      (d + w) / (BlackScholes.sigma * Real.sqrt T) := by ring_nf
  have e2 : (S + d - S) / (BlackScholes.sigma * Real.sqrt T) =
      d / (BlackScholes.sigma * Real.sqrt T) := by ring_nf
  have e3 : (S - d - S) / (BlackScholes.sigma * Real.sqrt T) =
      -(d / (BlackScholes.sigma * Real.sqrt T)) := by ring_nf
  have e4 : (S - d - w - S) / (BlackScholes.sigma * Real.sqrt T) =
      -((d + w) / (BlackScholes.sigma * Real.sqrt T)) := by ring_nf
  simp only [e1, e2, e3, e4]
  rw [cdf_reflect _ (div_pos hd hσ), cdf_reflect _ (div_pos (by linarith) hσ)]
  ring_nf

/-- C8, witness: the symmetry at `S = 100`, `d = 1`, `w = 1`, `T = 1`:
the probability of `[101, 102]` equals the probability of `[98, 99]`. -/
theorem calculateProbability_symmetric_witness :
    (0:ℝ) < 1 ∧
      BlackScholes.calculateProbability 100 (100 + 1) (100 + 1 + 1) 1 =
        BlackScholes.calculateProbability 100 (100 - 1 - 1) (100 - 1) 1 :=
  ⟨by norm_num,
    calculateProbability_symmetric 100 1 1 1 (by norm_num) (by norm_num) (by norm_num)⟩

/-! ## C3 — ledger conservation -/

/-- Helper: looking up the key just set. -/
theorem lookupA_insertA_self {α : Type} (k : String) (v : α) (l : List (String × α)) :
    lookupA k (insertA k v l) = some v := by
  induction l with
  | nil => simp [insertA, lookupA]
  | cons kv rest ih =>
    by_cases h : kv.1 = k
    · simp [insertA, lookupA, h]
    · simp [insertA, lookupA, h, ih]

/-- Helper: setting one key does not change the lookup of another. -/
theorem lookupA_insertA_ne {α : Type} (k k0 : String) (v : α)
    (l : List (String × α)) (h : k0 ≠ k) :
    lookupA k (insertA k0 v l) = lookupA k l := by
  induction l with
  | nil => simp [insertA, lookupA, h]
  | cons kv rest ih =>
    by_cases hk : kv.1 = k0
    · simp [insertA, lookupA, hk, h]
    · by_cases hk2 : kv.1 = k <;>
        simp [insertA, lookupA, hk, hk2, ih, Ne.symm h]

/-- Helper: lookup commutes with a value-wise map. -/
theorem lookupA_map {α β : Type} (k : String) (f : α → β) (l : List (String × α)) :
    lookupA k (l.map fun kv => (kv.1, f kv.2)) = (lookupA k l).map f := by
  induction l with
  | nil => simp [lookupA]
  | cons kv rest ih =>
    by_cases h : kv.1 = k <;> simp [lookupA, h, ih]

/-- Helper: the balance movement of an accepted placement — the payer
is debited the stake, everyone else is untouched. -/
theorem placeBet_ok_balance (s : RoomState) (sid' cid : String) (amt : ℚ)
    (a : PlacedAck) (h : (placeBet s sid' cid amt).2 = .ok a) (sid : String) :
    balanceOf sid (placeBet s sid' cid amt).1 =
      balanceOf sid s - (if sid' = sid then amt else 0) := by
  unfold placeBet at h ⊢
  by_cases h1 : amt = 0 ∨ amt < 10
  · simp [h1] at h
  · simp only [h1, if_false] at h ⊢
    cases hp : lookupA sid' s.players with
    | none => simp [hp] at h
    | some player =>
      simp only [hp] at h ⊢
      by_cases h2 : player.balance < amt
      · simp [h2] at h
      · simp only [h2, if_false] at h ⊢
        cases hc : lookupA cid s.predictionCells with
        | none => simp [hc] at h
        | some cell =>
          simp only [hc] at h ⊢
          by_cases h3 : player.bets.any (fun b => b.2.cellId = cell.id) = true
          · simp [h3] at h
          · rw [if_neg h3] at h ⊢
            unfold balanceOf
            dsimp only
            by_cases hs : sid' = sid
            · subst hs
              rw [lookupA_insertA_self]
              simp [hp]
            · rw [lookupA_insertA_ne _ _ _ _ hs]
              simp [hs]

/-- Helper: one tick changes each balance by exactly the settlement
credit of that player's bets against the tick's candle. -/
theorem balanceOf_update (s : RoomState) (sid : String) (c : Candle)
    (probs : List ℚ) :
    balanceOf sid (update s c probs) = balanceOf sid s + creditOf sid s c := by
  unfold update balanceOf creditOf
  by_cases hg : c.time - s.lastGenerationTime ≥ PREDICTION_GENERATION_INTERVAL
  · simp only [hg, if_true, lookupA_map]
    cases hp : lookupA sid s.players <;> simp [settlePlayer]
  · simp only [hg, if_false, lookupA_map]
    cases hp : lookupA sid s.players <;> simp [settlePlayer]

/-- C3: along any sequence of placements and settlement ticks (no
joins), each player's final balance equals their initial balance minus
the stakes of their accepted placements plus the payouts credited to
their bets that resolved won. -/
theorem ledger_conservation (ops : List Op) (s : RoomState) (sid : String)
    (hops : ∀ op ∈ ops, isJoin op = false) :
    balanceOf sid (run s ops) =
      balanceOf sid s - placedTotal sid s ops + wonTotal sid s ops := by
  induction ops generalizing s with
  | nil => simp [run, placedTotal, wonTotal]
  | cons op rest ih =>
    have hop : isJoin op = false := hops op (List.mem_cons_self _ _)
    have hrest : ∀ o ∈ rest, isJoin o = false :=
      fun o ho => hops o (List.mem_cons_of_mem _ ho)
    cases op with
    | join sid0 => simp [isJoin] at hop
    | place sid0 cid amt =>
      simp only [run, placedTotal, wonTotal, applyOp]
      rw [ih _ hrest]
      cases hov : (placeBet s sid0 cid amt).2 with
      | error e =>
        rw [placeBet_error_fst s sid0 cid amt e hov]
        simp only [placeOk, hov]
        simp
      | ok a =>
        rw [placeBet_ok_balance s sid0 cid amt a hov sid]
        simp only [placeOk, hov]
        by_cases hs : sid0 = sid
        · simp [hs]; ring
        · simp [hs]
    | update c probs =>
      simp only [run, placedTotal, wonTotal, applyOp]
      rw [ih _ hrest, balanceOf_update]
      ring

/-- C3, witness: one accepted placement of 100 on the sample cell
(odds 2) followed by one settling tick at close 100 — the conservation
identity at a fully concrete run. -/
theorem ledger_conservation_witness :
    (∀ op ∈ [Op.place "a" "c" 100, Op.update sampleCandle []], isJoin op = false) ∧
      balanceOf "a" (run (sampleRoom 10000) [Op.place "a" "c" 100, Op.update sampleCandle []]) =
        balanceOf "a" (sampleRoom 10000) -
          placedTotal "a" (sampleRoom 10000) [Op.place "a" "c" 100, Op.update sampleCandle []] +
          wonTotal "a" (sampleRoom 10000) [Op.place "a" "c" 100, Op.update sampleCandle []] :=
  ⟨by simp [isJoin],
    ledger_conservation [Op.place "a" "c" 100, Op.update sampleCandle []]
      (sampleRoom 10000) "a" (by simp [isJoin])⟩

/-! ## C10 — balances never go negative -/

/-- Helper: the odds function never returns a negative multiplier, for
any input probability whatsoever. -/
theorem calculateOdds_nonneg (p : ℚ) : 0 ≤ BlackScholes.calculateOdds p := by
  unfold BlackScholes.calculateOdds
  split_ifs with h1 h2
  · norm_num
  · norm_num
  · push_neg at h1
    have hp0 : (0:ℚ) < p := by linarith
    simp only [jsRound]
    have harg : (0:ℚ) ≤ (1/p) * (95/100) * 100 + 1/2 := by positivity
    have hfl : (0:ℤ) ≤ ⌊(1/p) * (95/100) * 100 + 1/2⌋ := Int.floor_nonneg.mpr harg
    have hc : (0:ℚ) ≤ ((⌊(1/p) * (95/100) * 100 + 1/2⌋ : ℤ) : ℚ) := by
      exact_mod_cast hfl
    linarith

/-- Helper: settlement never changes a bet's stake or odds. -/
theorem settleBet_amount_odds (now : ℤ) (close : ℚ) (b : Bet) :
    (settleBet now close b).1.amount = b.amount ∧
      (settleBet now close b).1.odds = b.odds := by
  unfold settleBet
  split_ifs <;> simp

/-- Helper: a settlement iteration credits a non-negative amount. -/
theorem settleBet_credit_nonneg (now : ℤ) (close : ℚ) (b : Bet)
    (hb : betWF b) : 0 ≤ (settleBet now close b).2.2 := by
  unfold settleBet
  split_ifs
  · simpa using mul_nonneg hb.1 hb.2
  · simp
  · simp
  · simp
  · simp

/-- Helper: a settlement pass credits a non-negative total. -/
theorem passCredit_nonneg (now : ℤ) (close : ℚ) (bets : List (String × Bet))
    (h : ∀ kb ∈ bets, betWF kb.2) : 0 ≤ passCredit now close bets := by
  induction bets with
  | nil => simp [passCredit]
  | cons kb rest ih =>
    have h1 := h kb (List.mem_cons_self _ _)
    have h2 : ∀ x ∈ rest, betWF x.2 := fun x hx => h x (List.mem_cons_of_mem _ hx)
    exact add_nonneg (settleBet_credit_nonneg now close kb.2 h1) (ih h2)

/-- Helper: a settlement pass keeps every bet well-formed. -/
theorem settleBets_WF (now : ℤ) (close : ℚ) (bets : List (String × Bet))
    (h : ∀ kb ∈ bets, betWF kb.2) :
    ∀ kb ∈ settleBets now close bets, betWF kb.2 := by
  induction bets with
  | nil => simp [settleBets]
  | cons kb rest ih =>
    have h1 := h kb (List.mem_cons_self _ _)
    have h2 : ∀ x ∈ rest, betWF x.2 := fun x hx => h x (List.mem_cons_of_mem _ hx)
    have hs : betWF (settleBet now close kb.2).1 := by
      have ha := settleBet_amount_odds now close kb.2
      exact ⟨ha.1 ▸ h1.1, ha.2 ▸ h1.2⟩
    intro x hx
    unfold settleBets at hx
    by_cases hkeep : (settleBet now close kb.2).2.1 = true
    · rw [if_pos hkeep] at hx
      rcases List.mem_cons.mp hx with h'|h'
      · subst h'; exact hs
      · exact ih h2 x h'
    · rw [if_neg hkeep] at hx
      exact ih h2 x hx

/-- Helper: a settlement pass keeps a player well-formed. -/
theorem settlePlayer_WF (now : ℤ) (close : ℚ) (p : Player)
    (h : playerWF p) : playerWF (settlePlayer now close p) := by
  refine ⟨add_nonneg h.1 (passCredit_nonneg now close p.bets h.2), ?_⟩
  exact settleBets_WF now close p.bets h.2

/-- Helper: cell cleanup removes cells, so it preserves any property of
the remaining ones. -/
theorem cleanupCells_forall {P : String × PredictionCell → Prop} (now : ℤ)
    (l : List (String × PredictionCell)) (h : ∀ kc ∈ l, P kc) :
    ∀ kc ∈ cleanupCells now l, P kc := by
  induction l with
  | nil => simp [cleanupCells]
  | cons kc rest ih =>
    have h1 := h kc (List.mem_cons_self _ _)
    have h2 : ∀ x ∈ rest, P x := fun x hx => h x (List.mem_cons_of_mem _ hx)
    intro x hx
    unfold cleanupCells at hx
    by_cases hd : now > kc.2.endTime
    · rw [if_pos hd] at hx
      exact ih h2 x hx
    · rw [if_neg hd] at hx
      rcases List.mem_cons.mp hx with h'|h'
      · subst h'; exact h1
      · exact ih h2 x h'

/-- Helper: `insertA` preserves a value-wise property. -/
theorem insertA_forall {α : Type} {P : α → Prop} (k : String) (v : α)
    (l : List (String × α)) (h : ∀ kv ∈ l, P kv.2) (hv : P v) :
    ∀ kv ∈ insertA k v l, P kv.2 := by
  induction l with
  | nil => simpa [insertA]
  | cons kv0 rest ih =>
    have h1 := h kv0 (List.mem_cons_self _ _)
    have h2 : ∀ x ∈ rest, P x.2 := fun x hx => h x (List.mem_cons_of_mem _ hx)
    intro x hx
    unfold insertA at hx
    by_cases hk : kv0.1 = k
    · rw [if_pos hk] at hx
      rcases List.mem_cons.mp hx with h'|h'
      · subst h'; exact hv
      · exact h2 x h'
    · rw [if_neg hk] at hx
      rcases List.mem_cons.mp hx with h'|h'
      · subst h'; exact h1
      · exact ih h2 x h'

/-- Helper: a successful lookup lands on a value of the list. -/
theorem lookupA_forall {α : Type} {P : α → Prop} (k : String) (v : α)
    (l : List (String × α)) (h : ∀ kv ∈ l, P kv.2)
    (hl : lookupA k l = some v) : P v := by
  induction l with
  | nil => simp [lookupA] at hl
  | cons kv0 rest ih =>
    have h1 := h kv0 (List.mem_cons_self _ _)
    have h2 : ∀ x ∈ rest, P x.2 := fun x hx => h x (List.mem_cons_of_mem _ hx)
    unfold lookupA at hl
    by_cases hk : kv0.1 = k
    · rw [if_pos hk] at hl
      injection hl with hv
      exact hv ▸ h1
    · rw [if_neg hk] at hl
      exact ih h2 hl

/-- Helper: every generated cell has non-negative odds. -/
theorem generatePredictionCells_WF (P : ℚ) (t : ℤ) (probs : List ℚ) (n : ℕ) :
    ∀ c ∈ generatePredictionCells P t probs n, cellWF c := by
  intro c hc
  unfold generatePredictionCells at hc
  simp only [List.mem_map] at hc
  obtain ⟨i, _, rfl⟩ := hc
  exact calculateOdds_nonneg _

/-- Helper: adding well-formed cells preserves the cell invariant. -/
theorem addCells_forall (cells : List PredictionCell) :
    ∀ (m : List (String × PredictionCell)), (∀ kc ∈ m, cellWF kc.2) →
      (∀ c ∈ cells, cellWF c) → ∀ kc ∈ addCells cells m, cellWF kc.2 := by
  induction cells with
  | nil => intro m hm _hc; exact hm
  | cons c rest ih =>
    intro m hm hc
    have h1 := hc c (List.mem_cons_self _ _)
    have h2 : ∀ x ∈ rest, cellWF x := fun x hx => hc x (List.mem_cons_of_mem _ hx)
    intro x hx
    have he : addCells (c :: rest) m = addCells rest (insertA c.id c m) := rfl
    rw [he] at hx
    exact ih (insertA c.id c m) (insertA_forall c.id c m hm h1) h2 x hx

/-- Helper: a join keeps the state well-formed. -/
theorem onJoin_WF (s : RoomState) (sid : String) (h : StateWF s) :
    StateWF (onJoin s sid) := by
  unfold onJoin
  cases hp : lookupA sid s.players with
  | some player =>
    refine ⟨?_, h.2⟩
    have hpw : playerWF player := lookupA_forall sid player s.players h.1 hp
    exact insertA_forall sid _ s.players h.1 ⟨hpw.1, hpw.2⟩
  | none =>
    refine ⟨?_, h.2⟩
    exact insertA_forall sid _ s.players h.1 ⟨by norm_num, by simp⟩

/-- Helper: a placement keeps the state well-formed — the debit is
covered by the balance check, the new bet copies a well-formed cell's
odds and a validated stake. -/
theorem placeBet_WF (s : RoomState) (sid cid : String) (amt : ℚ)
    (h : StateWF s) : StateWF (placeBet s sid cid amt).1 := by
  cases hov : (placeBet s sid cid amt).2 with
  | error e => rw [placeBet_error_fst s sid cid amt e hov]; exact h
  | ok a =>
    unfold placeBet at hov ⊢
    by_cases h1 : amt = 0 ∨ amt < 10
    · simp [h1] at hov
    · simp only [h1, if_false] at hov ⊢
      cases hp : lookupA sid s.players with
      | none => simp [hp] at hov
      | some player =>
        simp only [hp] at hov ⊢
        by_cases h2 : player.balance < amt
        · simp [h2] at hov
        · simp only [h2, if_false] at hov ⊢
          cases hc : lookupA cid s.predictionCells with
          | none => simp [hc] at hov
          | some cell =>
            simp only [hc] at hov ⊢
            by_cases h3 : player.bets.any (fun b => b.2.cellId = cell.id) = true
            · simp [h3] at hov
            · rw [if_neg h3] at hov ⊢
              refine ⟨?_, h.2⟩
              have hpw : playerWF player := lookupA_forall sid player s.players h.1 hp
              have hcw : cellWF cell := lookupA_forall cid cell s.predictionCells h.2 hc
              push_neg at h1 h2
              apply insertA_forall sid _ s.players h.1
              refine ⟨show (0:ℚ) ≤ player.balance - amt by linarith, ?_⟩
              apply insertA_forall _ _ player.bets hpw.2
              exact ⟨show (0:ℚ) ≤ amt by linarith [h1.2], hcw⟩

/-- Helper: a tick keeps the state well-formed. -/
theorem update_WF (s : RoomState) (c : Candle) (probs : List ℚ)
    (h : StateWF s) : StateWF (update s c probs) := by
  unfold update
  by_cases hg : c.time - s.lastGenerationTime ≥ PREDICTION_GENERATION_INTERVAL
  all_goals simp only [hg, if_true, if_false]
  all_goals refine ⟨?_, ?_⟩
  · intro kp hkp
    simp only [List.mem_map] at hkp
    obtain ⟨kp0, hkp0, rfl⟩ := hkp
    exact settlePlayer_WF c.time c.close kp0.2 (h.1 kp0 hkp0)
  · apply cleanupCells_forall
    exact addCells_forall _ _ h.2 (generatePredictionCells_WF c.close c.time probs s.nextId)
  · intro kp hkp
    simp only [List.mem_map] at hkp
    obtain ⟨kp0, hkp0, rfl⟩ := hkp
    exact settlePlayer_WF c.time c.close kp0.2 (h.1 kp0 hkp0)
  · exact cleanupCells_forall c.time s.predictionCells h.2

/-- Helper: every operation keeps the state well-formed. -/
theorem run_WF (ops : List Op) (s : RoomState) (h : StateWF s) :
    StateWF (run s ops) := by
  induction ops generalizing s with
  | nil => exact h
  | cons op rest ih =>
    cases op with
    | join sid => exact ih _ (onJoin_WF s sid h)
    | place sid cid amt => exact ih _ (placeBet_WF s sid cid amt h)
    | update c probs => exact ih _ (update_WF s c probs h)

/-- Helper: the pre-generation loop of onCreate keeps the state
well-formed. -/
theorem preGen_foldl_WF (now : ℤ) (price : ℚ) (probss : List (List ℚ))
    (L : List ℕ) (s : RoomState) (h : StateWF s) :
    StateWF (L.foldl (preGenStep now price probss) s) := by
  induction L generalizing s with
  | nil => exact h
  | cons i rest ih =>
    apply ih
    refine ⟨h.1, ?_⟩
    exact addCells_forall _ _ h.2 (generatePredictionCells_WF _ _ _ _)

/-- Helper: changing the generation timestamp does not affect
well-formedness. -/
theorem StateWF_setLastGen (s : RoomState) (t : ℤ) (h : StateWF s) :
    StateWF { s with lastGenerationTime := t } := ⟨h.1, h.2⟩

/-- Helper: the initial room state is well-formed. -/
theorem onCreate_WF (now : ℤ) (price : ℚ) (probss : List (List ℚ)) :
    StateWF (onCreate now price probss) := by
  have h0 : StateWF
      { players := [], predictionCells := [], currentPrice := 0,
        lastGenerationTime := 0, nextId := 0 } := ⟨by simp, by simp⟩
  unfold onCreate
  exact StateWF_setLastGen _ _
    (preGen_foldl_WF now price probss (List.range PREDICTION_INITIAL_COLUMNS) _ h0)

/-- C10: starting from a freshly created room, no sequence of joins,
placements and ticks can drive any player's balance below zero —
players join at 10000, a stake is debited only after the balance check,
and settlement only ever credits non-negative payouts at non-negative
odds. -/
theorem balance_nonneg (now : ℤ) (price : ℚ) (probss : List (List ℚ))
    (ops : List Op) (sid : String) :
    0 ≤ balanceOf sid (run (onCreate now price probss) ops) := by
  have hwf : StateWF (run (onCreate now price probss) ops) :=
    run_WF ops _ (onCreate_WF now price probss)
  unfold balanceOf
  cases hp : lookupA sid (run (onCreate now price probss) ops).players with
  | none => simp
  | some p =>
    simpa using (lookupA_forall sid p _ hwf.1 hp).1

end TraderMaster
